import Mathlib

/-!
Verification of the chat-completion emulator service (src/service.py).

Texts are modelled as lists of characters. The external byte-pair encoder
(tiktoken) is a parameter of the embedding with Option-valued encode and
decode: a `none` result models the underlying library raising an exception,
which the service catches. Random phrase selection is modelled by an index
source `rand : Nat → Nat`; the k-th call of the random chooser picks element
`rand k % length` of its pool, so quantifying over `rand` covers every
possible sequence of picks.
-/

namespace OpenAIEmu

abbrev Text := List Char

def isWsChar (c : Char) : Bool := c.isWhitespace

/-- Python str.strip with no argument: remove leading and trailing whitespace. -/
def pyStrip (s : Text) : Text :=
  ((s.dropWhile isWsChar).reverse.dropWhile isWsChar).reverse

/-- Python str.split with no argument: split on whitespace runs, dropping empty words. -/
def pySplit (s : Text) : List Text :=
  let r := s.foldr
    (fun (c : Char) (acc : Text × List Text) =>
      if isWsChar c then ([], if acc.1 = [] then acc.2 else acc.1 :: acc.2)
      else (c :: acc.1, acc.2))
    ([], [])
  if r.1 = [] then r.2 else r.1 :: r.2

/-- Python list slicing l[:k], including the negative-index convention. -/
def pySliceTo (l : List α) (k : Int) : List α :=
  if k < 0 then l.take ((l.length : Int) + k).toNat else l.take k.toNat

/-- Python " ".join of a word list. -/
def sepJoin (ws : List Text) : Text :=
  match ws with
  | [] => []
  | w :: rest => w ++ rest.foldr (fun x acc => ' ' :: (x ++ acc)) []

/-- The external byte-pair encoder (tiktoken), consumed as an external
capability per the specification. A `none` result of either operation
models the library raising an exception on that call. -/
structure Encoding where
  encode : Text → Option (List Nat)
  decode : List Nat → Option Text

/-- Transcription of OpenAIEmulator._count_tokens: the adapter state
`none` models a failed tiktoken initialization; an encode failure is the
raised-exception branch. Both degrade to the character estimate len / 4. -/
def countTokens (enc : Option Encoding) (text : Text) : Nat :=
  match enc with
  | none => text.length / 4
  | some e =>
    match e.encode text with
    | some ids => ids.length
    | none => text.length / 4

/-- Transcription of the sample_responses pool of OpenAIEmulator.__init__. -/
def sampleResponses : List Text := [
  "Hello! How can I assist you today?".data,
  "I'm here to help you with any questions you might have.".data,
  "That's an interesting question. Let me think about it.".data,
  "I understand what you're asking. Here's my response:".data,
  "Thank you for your question. I'd be happy to help.".data,
  "Based on the information provided, I can offer the following insights:".data,
  "Let me provide you with a comprehensive answer to your query.".data,
  "I appreciate you reaching out. Here's what I can tell you:".data]

/-- Transcription of the filler_phrases pool of _generate_response_content. -/
def fillerPhrases : List Text := [
  "Additionally, I want to mention that".data,
  "Furthermore, it's important to note that".data,
  "Moreover, we should consider that".data,
  "In fact, this reminds me that".data,
  "It's worth noting that".data,
  "Please also consider that".data,
  "Also, I should add that".data,
  "On a related note,".data,
  "To elaborate further,".data,
  "In this context,".data]

/-- Transcription of the extension_templates pool of _generate_response_content. -/
def extensionTemplates : List Text := [
  "this is a very interesting topic that deserves careful consideration".data,
  "there are many aspects to explore in this particular area of discussion".data,
  "we can approach this from multiple different perspectives and viewpoints".data,
  "the implications of this are quite significant and far-reaching in nature".data,
  "this subject matter has various nuances that are worth examining closely".data,
  "there are several factors that contribute to the overall understanding here".data,
  "the complexity of this issue requires thorough analysis and careful thought".data]

/-- Model of random.choice: the k-th random draw picks index rand k modulo
the pool size, so every element of the pool is a possible pick. -/
def randChoice (rand : Nat → Nat) (k : Nat) (pool : List Text) : Text :=
  pool.getD (rand k % pool.length) []

/-- The word-truncation fallback of _generate_response_content: words of the
content, truncated to max(1, targetTokens // 1.3) words, joined by spaces.
Python floor division of an int by the float 1.3 is modelled as the exact
floor of targetTokens * 10 / 13. -/
def wordsFallback (content : Text) (targetTokens : Int) : Text :=
  let words := pySplit content
  let estimatedWords : Int := max 1 (Int.fdiv (targetTokens * 10) 13)
  sepJoin (words.take estimatedWords.toNat)

def moreTxt : Text := " more".data

/-- One appended fragment of the extension loop: f" {filler} {extension}.". -/
def mkAddition (filler extension : Text) : Text :=
  ' ' :: (filler ++ ' ' :: (extension ++ ['.']))

/-- Transcription of the while loop of _generate_response_content. The fuel
argument bounds the number of iterations; the caller passes enough fuel that
the bound is never reached before the loop exits on its own, whenever every
appended fragment accounts for at least one token (as every exactness claim
assumes). On exhausted fuel the accumulated content is returned stripped,
which coincides with the loop-exit behavior of the source. -/
def extendLoop (enc : Option Encoding) (rand : Nat → Nat) (targetTokens : Int) :
    Nat → Text → Nat → Nat → Text
  | 0, content, _, _ => pyStrip content
  | fuel + 1, content, currentTokens, i =>
    if (currentTokens : Int) < targetTokens then
      let filler := randChoice rand i fillerPhrases
      let extension := randChoice rand (i + 1) extensionTemplates
      let addition := mkAddition filler extension
      let additionTokens := countTokens enc addition
      if (currentTokens : Int) + (additionTokens : Int) ≤ targetTokens then
        extendLoop enc rand targetTokens fuel (content ++ addition)
          (currentTokens + additionTokens) (i + 2)
      else
        let remainingTokens : Int := targetTokens - (currentTokens : Int)
        let content2 :=
          if 0 < remainingTokens then
            match enc with
            | some e =>
              match e.encode addition with
              | some encodedAddition =>
                match e.decode (pySliceTo encodedAddition remainingTokens) with
                | some partAddition => content ++ partAddition
                | none => content ++ moreTxt
              | none => content ++ moreTxt
            | none => content ++ moreTxt
          else content
        pyStrip content2
    else pyStrip content

/-- Transcription of _generate_response_content. The first random draw picks
the base response; draws 1, 2 then 3, 4 and so on feed the extension loop. -/
def generateResponseContent (enc : Option Encoding) (rand : Nat → Nat)
    (targetTokens : Int) : Text :=
  let baseResponse := randChoice rand 0 sampleResponses
  let currentTokens := countTokens enc baseResponse
  if targetTokens ≤ (currentTokens : Int) then
    match enc with
    | some e =>
      match e.encode baseResponse with
      | some encoded =>
        match e.decode (pySliceTo encoded targetTokens) with
        | some truncated => truncated
        | none => wordsFallback baseResponse targetTokens
      | none => wordsFallback baseResponse targetTokens
    | none => wordsFallback baseResponse targetTokens
  else
    extendLoop enc rand targetTokens (targetTokens - (currentTokens : Int)).toNat
      baseResponse currentTokens 1

def assistantTxt : Text := "assistant".data
def stopTxt : Text := "stop".data
def chunkObjectTxt : Text := "chat.completion.chunk".data
def completionObjectTxt : Text := "chat.completion".data
def doneFrameTxt : Text := "data: [DONE]\n\n".data
def dataColonTxt : Text := "data: ".data

/-- Pydantic model ImageUrl of the request schema. -/
structure ImageUrl where
  url : Text
  detail : Option Text
deriving DecidableEq

/-- Pydantic model ContentItem of the request schema. -/
structure ContentItem where
  type : Text
  text : Option Text
  image_url : Option ImageUrl
deriving DecidableEq

/-- The two admitted shapes of Message.content: plain text or content parts. -/
inductive MessageContent where
  | str (s : Text)
  | parts (items : List ContentItem)
deriving DecidableEq

/-- Pydantic model Message. -/
structure Message where
  role : Text
  content : Option MessageContent
deriving DecidableEq

/-- Pydantic model ChatCompletionRequest, after body parsing and defaulting. -/
structure ChatCompletionRequest where
  model : Text
  messages : List Message
  stream : Bool
  max_tokens : Int
  temperature : ℚ
deriving DecidableEq

/-- Pydantic model Choice of the non-streaming response. -/
structure Choice where
  index : Nat
  message : Message
  finish_reason : Option Text
deriving DecidableEq

/-- Pydantic model Usage. -/
structure Usage where
  prompt_tokens : Nat
  completion_tokens : Nat
  total_tokens : Nat
deriving DecidableEq

/-- Pydantic model ChatCompletionResponse. -/
structure ChatCompletionResponse where
  id : Text
  object : Text
  created : Int
  model : Text
  choices : List Choice
  usage : Usage
deriving DecidableEq

/-- The delta dictionary of a streamed chunk. The three shapes occurring in
the source are (some role, some text), (none, some text) and (none, none). -/
structure DeltaObj where
  role : Option Text
  content : Option Text
deriving DecidableEq

/-- Pydantic model DeltaChoice of a streamed chunk. -/
structure DeltaChoice where
  index : Nat
  delta : DeltaObj
  finish_reason : Option Text
deriving DecidableEq

/-- Pydantic model ChatCompletionStreamResponse. -/
structure ChatCompletionStreamResponse where
  id : Text
  object : Text
  created : Int
  model : Text
  choices : List DeltaChoice
deriving DecidableEq

/-- One wire frame of the SSE stream: a serialized chunk or the terminal
literal sentinel "data: [DONE]"-frame. -/
inductive Frame where
  | chunk (c : ChatCompletionStreamResponse)
  | done
deriving DecidableEq

/-- One step of the streaming generator: a timed suspension (asyncio.sleep)
or a yielded frame. -/
inductive Event where
  | sleep (seconds : ℚ)
  | frame (f : Frame)
deriving DecidableEq

/-- Wire rendering of a frame, parameterized by the JSON serializer of a
chunk: "data: " ++ json ++ two newlines, and the literal terminal frame. -/
def renderFrame (json : ChatCompletionStreamResponse → Text) : Frame → Text
  | Frame.chunk c => dataColonTxt ++ json c ++ ['\n', '\n']
  | Frame.done => doneFrameTxt

/-- A single-choice streamed chunk as built throughout _stream_response. -/
def mkStreamChunk (rid : Text) (created : Int) (model : Text) (d : DeltaObj)
    (fin : Option Text) : ChatCompletionStreamResponse :=
  ⟨rid, chunkObjectTxt, created, model, [⟨0, d, fin⟩]⟩

/-- The token-wise emission loop of _stream_response. Before every token but
the first the generator sleeps for the inter-token delay; the sleep precedes
the decode of the token, so a decode failure still leaves the sleep emitted.
The boolean result is false when some decode raised, in which case the
source falls back to word-wise emission after the events already yielded. -/
def emitTokens (e : Encoding) (rid : Text) (created : Int) (model : Text)
    (itl : ℚ) : List Nat → Bool → List Event × Bool
  | [], _ => ([], true)
  | t :: ts, isFirst =>
    let pre : List Event := if isFirst then [] else [Event.sleep itl]
    match e.decode [t] with
    | none => (pre, false)
    | some tokenText =>
      let rest := emitTokens e rid created model itl ts false
      (pre ++ Event.frame (Frame.chunk (mkStreamChunk rid created model
        ⟨none, some tokenText⟩ none)) :: rest.1, rest.2)

/-- The word-wise fallback emission loop of _stream_response: each word is
sent with a single trailing space appended. -/
def emitWords (rid : Text) (created : Int) (model : Text) (itl : ℚ) :
    List Text → Bool → List Event
  | [], _ => []
  | w :: ws, isFirst =>
    let pre : List Event := if isFirst then [] else [Event.sleep itl]
    pre ++ Event.frame (Frame.chunk (mkStreamChunk rid created model
      ⟨none, some (w ++ [' '])⟩ none)) :: emitWords rid created model itl ws false

/-- The content-emission section of _stream_response: token-wise when the
encoder is present and its encode call succeeds (with the word-wise loop
appended from the start should some decode raise midway), word-wise
otherwise. -/
def streamMiddle (enc : Option Encoding) (rid : Text) (created : Int)
    (model : Text) (itl : ℚ) (content : Text) : List Event :=
  match enc with
  | some e =>
    match e.encode content with
    | some tokens =>
      let r := emitTokens e rid created model itl tokens true
      if r.2 then r.1
      else r.1 ++ emitWords rid created model itl (pySplit content) true
    | none => emitWords rid created model itl (pySplit content) true
  | none => emitWords rid created model itl (pySplit content) true

/-- Transcription of _stream_response: sleep for the first-token delay,
generate the content, emit the role chunk, emit the content section, then
the final chunk with finish_reason "stop" and the literal terminal
sentinel frame. -/
def streamEvents (enc : Option Encoding) (rand : Nat → Nat)
    (model : Text) (rid : Text) (created : Int)
    (ttft itl : ℚ) (outputLength : Int) : List Event :=
  let content := generateResponseContent enc rand outputLength
  let firstChunk := Event.frame (Frame.chunk (mkStreamChunk rid created model
    ⟨some assistantTxt, some []⟩ none))
  Event.sleep ttft :: firstChunk :: (streamMiddle enc rid created model itl content
    ++ [Event.frame (Frame.chunk (mkStreamChunk rid created model ⟨none, none⟩
          (some stopTxt))),
        Event.frame Frame.done])

def digitsToNat (l : Text) : Nat := l.foldl (fun a c => 10 * a + (c.toNat - 48)) 0

/-- Unsigned decimal numeral, with an optional fractional part. Together
with parseFloat below this models the Python float() conversion on the
numeral forms relevant here; a `none` models the raised ValueError. -/
def parseUnsignedFloat (s : Text) : Option ℚ :=
  let intPart := s.takeWhile Char.isDigit
  let rest := s.dropWhile Char.isDigit
  match rest with
  | [] => if intPart.isEmpty then none else some (digitsToNat intPart)
  | '.' :: frac =>
    if (intPart.isEmpty ∧ frac.isEmpty) ∨ ¬ frac.all Char.isDigit then none
    else some ((digitsToNat intPart : ℚ) + (digitsToNat frac : ℚ) / (10 : ℚ) ^ frac.length)
  | _ => none

/-- Model of Python float() on a header string. -/
def parseFloat (s : Text) : Option ℚ :=
  match s with
  | '-' :: r => (parseUnsignedFloat r).map (fun q => -q)
  | '+' :: r => parseUnsignedFloat r
  | _ => parseUnsignedFloat s

/-- Model of Python int() on a header string: an optional sign followed by
digits; anything else raises, modelled as `none`. -/
def parseIntStr (s : Text) : Option Int :=
  match s with
  | '-' :: r =>
    if r.isEmpty ∨ ¬ r.all Char.isDigit then none else some (-(digitsToNat r : Int))
  | '+' :: r =>
    if r.isEmpty ∨ ¬ r.all Char.isDigit then none else some (digitsToNat r : Int)
  | _ =>
    if s.isEmpty ∨ ¬ s.all Char.isDigit then none else some (digitsToNat s : Int)

/-- The three optional timing headers of a request. -/
structure Headers where
  ttftMs : Option Text
  itlMs : Option Text
  outputLength : Option Text
deriving DecidableEq

/-- Transcription of _get_timing_params: absent headers default to 100 ms,
50 ms and 20 tokens; a value that fails numeric conversion raises, modelled
as `none` (the route handler turns this into HTTP 400). The millisecond
delays are divided by 1000. -/
def getTimingParams (h : Headers) : Option (ℚ × ℚ × Int) :=
  let ttftMs := match h.ttftMs with
    | none => some (100 : ℚ)
    | some s => parseFloat s
  let itlMs := match h.itlMs with
    | none => some (50 : ℚ)
    | some s => parseFloat s
  let outputLength := match h.outputLength with
    | none => some (20 : Int)
    | some s => parseIntStr s
  match ttftMs, itlMs, outputLength with
  | some t, some i, some o => some (t / 1000, i / 1000, o)
  | _, _, _ => none

/-- Result of the chat-completions route: a streaming response (its event
sequence) or a completed response preceded by the first-token sleep. -/
inductive ChatResult where
  | stream (events : List Event)
  | complete (pre : List Event) (response : ChatCompletionResponse)
deriving DecidableEq

/-- Transcription of the chat_completions route handler on an
already-parsed request body. The external identifier source (uuid) and
clock are the parameters rid and created; the serialization str() applied
to the message list for the prompt-token estimate is the parameter srepr.
A header conversion failure raises inside the try block and is returned as
HTTP status 400 without any content being generated. -/
def chatCompletions (enc : Option Encoding) (rand : Nat → Nat)
    (srepr : List Message → Text) (rid : Text) (created : Int)
    (req : ChatCompletionRequest) (h : Headers) : Except Nat ChatResult :=
  match getTimingParams h with
  | none => Except.error 400
  | some (ttft, itl, outputLength) =>
    if req.stream then
      Except.ok (ChatResult.stream
        (streamEvents enc rand req.model rid created ttft itl outputLength))
    else
      let content := generateResponseContent enc rand outputLength
      let promptTokens := (srepr req.messages).length / 4
      let completionTokens := countTokens enc content
      let totalTokens := promptTokens + completionTokens
      Except.ok (ChatResult.complete [Event.sleep ttft]
        ⟨rid, completionObjectTxt, created, req.model,
         [⟨0, ⟨assistantTxt, some (MessageContent.str content)⟩, some stopTxt⟩],
         ⟨promptTokens, completionTokens, totalTokens⟩⟩)

/-- The frames of an event sequence, in emission order. -/
def frameList (evs : List Event) : List Frame :=
  evs.filterMap (fun ev => match ev with
    | Event.frame f => some f
    | _ => none)

/-- A frame is a content-delta chunk when its single choice carries only
content: no role, no finish_reason. This excludes the role-open chunk (which
carries a role) and the final chunk (which carries no content). -/
def isContentDelta (f : Frame) : Bool :=
  match f with
  | Frame.chunk c =>
    match c.choices with
    | [ch] => ch.delta.role.isNone && ch.delta.content.isSome && ch.finish_reason.isNone
    | _ => false
  | Frame.done => false

/-- The number of content-delta frames of an event sequence. -/
def countContentDeltas (evs : List Event) : Nat :=
  (frameList evs).countP isContentDelta

/-- Concatenation of the texts of all content-delta chunks, in emission
order. -/
def deltaTexts (evs : List Event) : Text :=
  (evs.filterMap (fun ev => match ev with
    | Event.frame (Frame.chunk c) =>
      match c.choices with
      | [ch] =>
        match ch.delta.role, ch.delta.content, ch.finish_reason with
        | none, some t, none => some t
        | _, _, _ => none
      | _ => none
    | _ => none)).flatten

/-- The event sequence of a streaming route result (empty otherwise). -/
def streamEventsOf (x : Except Nat ChatResult) : List Event :=
  match x with
  | Except.ok (ChatResult.stream evs) => evs
  | _ => []

/-- The content of the returned message of a completed route result (empty
otherwise). -/
def completeContentOf (x : Except Nat ChatResult) : Text :=
  match x with
  | Except.ok (ChatResult.complete _ r) =>
    match r.choices with
    | [ch] =>
      match ch.message.content with
      | some (MessageContent.str c) => c
      | _ => []
    | _ => []
  | _ => []

/-- Whether a route result is the HTTP 400 error. -/
def isError400 (x : Except Nat ChatResult) : Bool :=
  match x with
  | Except.error n => n == 400
  | _ => false

/-- Identity character-level instance of the external encoder: one token
per character, total and lossless. -/
def charEnc : Encoding :=
  ⟨fun s => some (s.map Char.toNat),
   fun l => some (l.map Char.ofNat)⟩

def nonWs (c : Char) : Bool := ! isWsChar c

/-- Character-level instance of the external encoder that assigns tokens
only to the non-whitespace characters, so that token counts are invariant
under whitespace trimming. -/
def nwsEnc : Encoding :=
  ⟨fun s => some ((s.filter nonWs).map Char.toNat),
   fun l => some (l.map Char.ofNat)⟩

/-- The laws of an exact tokenizer, under which the synthesizer hits its
token budget: encode and decode never raise, re-encoding a decoded prefix of
an encoding returns that prefix, token counts add over concatenation, token
counts are invariant under whitespace stripping, and every appended fragment
accounts for at least one token. These express the phrase of the
specification "when exact truncation is available" as properties of the
external encoder; they hold of the concrete instances used as witnesses. -/
structure ExactEncoding (e : Encoding) : Prop where
  total_encode : ∀ s, ∃ l, e.encode s = some l
  total_decode : ∀ l, ∃ t, e.decode l = some t
  roundtrip : ∀ s l k t, e.encode s = some l → e.decode (l.take k) = some t →
    e.encode t = some (l.take k)
  append_len : ∀ a b la lb lab, e.encode a = some la → e.encode b = some lb →
    e.encode (a ++ b) = some lab → lab.length = la.length + lb.length
  strip_len : ∀ s ls lt, e.encode s = some ls → e.encode (pyStrip s) = some lt →
    lt.length = ls.length
  addition_pos : ∀ f ∈ fillerPhrases, ∀ x ∈ extensionTemplates,
    1 ≤ countTokens (some e) (mkAddition f x)

/-- The losslessness laws of the external encoder used by the streaming
equivalence: encode and decode never raise, decode is a homomorphism for
concatenation, and decoding an encoding returns the encoded text. -/
structure LosslessDecoding (e : Encoding) : Prop where
  total_encode : ∀ s, ∃ l, e.encode s = some l
  total_decode : ∀ l, ∃ t, e.decode l = some t
  decode_append : ∀ a b ta tb, e.decode a = some ta → e.decode b = some tb →
    e.decode (a ++ b) = some (ta ++ tb)
  decode_encode : ∀ s l, e.encode s = some l → e.decode l = some s

theorem randChoice_mem (rand : Nat → Nat) (k : Nat) (pool : List Text)
    (h : pool ≠ []) : randChoice rand k pool ∈ pool := by
  have hlen : 0 < pool.length := List.length_pos.mpr h
  have hlt : rand k % pool.length < pool.length := Nat.mod_lt _ hlen
  unfold randChoice
  rw [List.getD_eq_getElem?_getD, List.getElem?_eq_getElem hlt]
  exact List.getElem_mem hlt

theorem countTokens_encode (e : Encoding) {t : Text} {ids : List Nat}
    (h : e.encode t = some ids) : countTokens (some e) t = ids.length := by
  simp [countTokens, h]

theorem nwsEnc_encode_eq (s : Text) :
    nwsEnc.encode s = some ((s.filter nonWs).map Char.toNat) := rfl

theorem nwsEnc_total_encode (s : Text) : ∃ l, nwsEnc.encode s = some l :=
  ⟨_, rfl⟩

theorem nwsEnc_total_decode (l : List Nat) : ∃ t, nwsEnc.decode l = some t :=
  ⟨_, rfl⟩

theorem map_ofNat_map_toNat (u : Text) :
    (u.map Char.toNat).map Char.ofNat = u := by
  rw [List.map_map]
  have h : ∀ c ∈ u, (Char.ofNat ∘ Char.toNat) c = id c := by
    intro c _
    simp [Char.ofNat_toNat]
  rw [List.map_congr_left h, List.map_id]

theorem nwsEnc_roundtrip (s : Text) (l : List Nat) (k : Nat) (t : Text)
    (hl : nwsEnc.encode s = some l) (ht : nwsEnc.decode (l.take k) = some t) :
    nwsEnc.encode t = some (l.take k) := by
  have hl2 : l = (s.filter nonWs).map Char.toNat := by
    simpa [nwsEnc] using hl.symm
  have ht2 : t = (l.take k).map Char.ofNat := by
    simpa [nwsEnc] using ht.symm
  subst hl2
  rw [← List.map_take] at ht2
  have hu : t = (s.filter nonWs).take k := by
    rw [ht2, map_ofNat_map_toNat]
  have hall : t.filter nonWs = t := by
    rw [List.filter_eq_self]
    intro a ha
    rw [hu] at ha
    exact (List.mem_filter.mp (List.mem_of_mem_take ha)).2
  rw [nwsEnc_encode_eq, hall, hu, List.map_take]

theorem nwsEnc_append_len (a b : Text) (la lb lab : List Nat)
    (ha : nwsEnc.encode a = some la) (hb : nwsEnc.encode b = some lb)
    (hab : nwsEnc.encode (a ++ b) = some lab) :
    lab.length = la.length + lb.length := by
  have ha2 : la = (a.filter nonWs).map Char.toNat := by
    simpa [nwsEnc] using ha.symm
  have hb2 : lb = (b.filter nonWs).map Char.toNat := by
    simpa [nwsEnc] using hb.symm
  have hab2 : lab = ((a ++ b).filter nonWs).map Char.toNat := by
    simpa [nwsEnc] using hab.symm
  subst ha2 hb2 hab2
  simp [List.filter_append]

theorem filter_nonWs_dropWhile (s : Text) :
    (s.dropWhile isWsChar).filter nonWs = s.filter nonWs := by
  induction s with
  | nil => rfl
  | cons c cs ih =>
    by_cases h : isWsChar c
    · rw [List.dropWhile_cons_of_pos h, ih, List.filter_cons_of_neg]
      simp [nonWs, h]
    · rw [List.dropWhile_cons_of_neg h]

theorem filter_nonWs_pyStrip (s : Text) :
    (pyStrip s).filter nonWs = s.filter nonWs := by
  unfold pyStrip
  rw [List.filter_reverse, filter_nonWs_dropWhile, List.filter_reverse,
    List.reverse_reverse, filter_nonWs_dropWhile]

theorem nwsEnc_strip_len (s : Text) (ls lt : List Nat)
    (hs : nwsEnc.encode s = some ls) (ht : nwsEnc.encode (pyStrip s) = some lt) :
    lt.length = ls.length := by
  have hs2 : ls = (s.filter nonWs).map Char.toNat := by
    simpa [nwsEnc] using hs.symm
  have ht2 : lt = ((pyStrip s).filter nonWs).map Char.toNat := by
    simpa [nwsEnc] using ht.symm
  subst hs2 ht2
  rw [filter_nonWs_pyStrip]

theorem nwsEnc_addition_pos : ∀ f ∈ fillerPhrases, ∀ x ∈ extensionTemplates,
    1 ≤ countTokens (some nwsEnc) (mkAddition f x) := by decide

theorem nwsEnc_decode_ne_nil (l : List Nat) (t : Text)
    (h : nwsEnc.decode l = some t) (hne : l ≠ []) : t ≠ [] := by
  have h2 : t = l.map Char.ofNat := by
    simpa [nwsEnc] using h.symm
  subst h2
  simpa using hne

theorem charEnc_total_encode (s : Text) : ∃ l, charEnc.encode s = some l :=
  ⟨_, rfl⟩

theorem charEnc_total_decode (l : List Nat) : ∃ t, charEnc.decode l = some t :=
  ⟨_, rfl⟩

theorem charEnc_decode_append (a b : List Nat) (ta tb : Text)
    (ha : charEnc.decode a = some ta) (hb : charEnc.decode b = some tb) :
    charEnc.decode (a ++ b) = some (ta ++ tb) := by
  have ha2 : ta = a.map Char.ofNat := by simpa [charEnc] using ha.symm
  have hb2 : tb = b.map Char.ofNat := by simpa [charEnc] using hb.symm
  subst ha2 hb2
  simp [charEnc]

theorem charEnc_lossless (s : Text) (l : List Nat)
    (h : charEnc.encode s = some l) : charEnc.decode l = some s := by
  have h2 : l = s.map Char.toNat := by simpa [charEnc] using h.symm
  subst h2
  show some ((s.map Char.toNat).map Char.ofNat) = some s
  rw [map_ofNat_map_toNat]

theorem nwsEnc_exact : ExactEncoding nwsEnc :=
  ⟨nwsEnc_total_encode, nwsEnc_total_decode, nwsEnc_roundtrip,
   nwsEnc_append_len, nwsEnc_strip_len, nwsEnc_addition_pos⟩

theorem countTokens_pyStrip (e : Encoding) (hE : ExactEncoding e) (s : Text) :
    countTokens (some e) (pyStrip s) = countTokens (some e) s := by
  obtain ⟨ls, hls⟩ := hE.total_encode s
  obtain ⟨lt, hlt⟩ := hE.total_encode (pyStrip s)
  rw [countTokens_encode e hlt, countTokens_encode e hls]
  exact hE.strip_len s ls lt hls hlt

theorem countTokens_append (e : Encoding) (hE : ExactEncoding e) (a b : Text) :
    countTokens (some e) (a ++ b) = countTokens (some e) a + countTokens (some e) b := by
  obtain ⟨la, hla⟩ := hE.total_encode a
  obtain ⟨lb, hlb⟩ := hE.total_encode b
  obtain ⟨lab, hlab⟩ := hE.total_encode (a ++ b)
  rw [countTokens_encode e hla, countTokens_encode e hlb, countTokens_encode e hlab]
  exact hE.append_len a b la lb lab hla hlb hlab

theorem fillerPhrases_ne_nil : fillerPhrases ≠ [] := by
  simp [fillerPhrases]

theorem extensionTemplates_ne_nil : extensionTemplates ≠ [] := by
  simp [extensionTemplates]

theorem sampleResponses_ne_nil : sampleResponses ≠ [] := by
  simp [sampleResponses]

theorem extendLoop_count (e : Encoding) (hE : ExactEncoding e)
    (rand : Nat → Nat) (target : Int) :
    ∀ fuel content tokens i,
      countTokens (some e) content = tokens →
      (tokens : Int) ≤ target →
      (target - (tokens : Int)).toNat ≤ fuel →
      (countTokens (some e)
        (extendLoop (some e) rand target fuel content tokens i) : Int) = target := by
  intro fuel
  induction fuel with
  | zero =>
    intro content tokens i hinv hle hfuel
    have htt : (tokens : Int) = target := by omega
    show (countTokens (some e) (pyStrip content) : Int) = target
    rw [countTokens_pyStrip e hE, hinv, htt]
  | succ fuel ih =>
    intro content tokens i hinv hle hfuel
    by_cases hcond : (tokens : Int) < target
    · have haTpos : 1 ≤ countTokens (some e)
          (mkAddition (randChoice rand i fillerPhrases)
            (randChoice rand (i + 1) extensionTemplates)) :=
        hE.addition_pos _ (randChoice_mem rand i _ fillerPhrases_ne_nil)
          _ (randChoice_mem rand (i + 1) _ extensionTemplates_ne_nil)
      simp only [extendLoop]
      rw [if_pos hcond]
      set addition := mkAddition (randChoice rand i fillerPhrases)
        (randChoice rand (i + 1) extensionTemplates) with haddn
      set aT := countTokens (some e) addition with haT
      by_cases hfit : (tokens : Int) + (aT : Int) ≤ target
      · rw [if_pos hfit]
        refine ih (content ++ addition) (tokens + aT) (i + 2) ?_ ?_ ?_
        · rw [countTokens_append e hE, hinv, haT]
        · omega
        · omega
      · rw [if_neg hfit]
        have hrem : (0 : Int) < target - (tokens : Int) := by omega
        rw [if_pos hrem]
        obtain ⟨la, hla⟩ := hE.total_encode addition
        have hlaT : la.length = aT := by
          rw [haT, countTokens_encode e hla]
        rw [hla]
        dsimp only
        have hslice : pySliceTo la (target - (tokens : Int))
            = la.take (target - (tokens : Int)).toNat := by
          unfold pySliceTo
          rw [if_neg (by omega)]
        rw [hslice]
        obtain ⟨pa, hpa⟩ := hE.total_decode (la.take (target - (tokens : Int)).toNat)
        rw [hpa]
        have hpaenc := hE.roundtrip addition la (target - (tokens : Int)).toNat pa hla hpa
        have hpacount : countTokens (some e) pa
            = (la.take (target - (tokens : Int)).toNat).length :=
          countTokens_encode e hpaenc
        rw [List.length_take] at hpacount
        have hmin : (target - (tokens : Int)).toNat ⊓ la.length
            = (target - (tokens : Int)).toNat := by
          omega
        rw [hmin] at hpacount
        rw [countTokens_pyStrip e hE, countTokens_append e hE, hinv, hpacount]
        omega
    · have htt : (tokens : Int) = target := by omega
      simp only [extendLoop]
      rw [if_neg hcond]
      rw [countTokens_pyStrip e hE, hinv, htt]

theorem generate_count_exact (e : Encoding) (hE : ExactEncoding e)
    (rand : Nat → Nat) (target : Int) (htarget : 1 ≤ target) :
    (countTokens (some e)
      (generateResponseContent (some e) rand target) : Int) = target := by
  unfold generateResponseContent
  set base := randChoice rand 0 sampleResponses with hbase
  set tokens0 := countTokens (some e) base with htokens0
  by_cases hcase : target ≤ (tokens0 : Int)
  · rw [if_pos hcase]
    obtain ⟨l, hl⟩ := hE.total_encode base
    have hlen : l.length = tokens0 := by
      rw [htokens0, countTokens_encode e hl]
    dsimp only
    rw [hl]
    dsimp only
    have hslice : pySliceTo l target = l.take target.toNat := by
      unfold pySliceTo
      rw [if_neg (by omega)]
    rw [hslice]
    obtain ⟨t, ht⟩ := hE.total_decode (l.take target.toNat)
    rw [ht]
    have htcount : countTokens (some e) t = (l.take target.toNat).length :=
      countTokens_encode e (hE.roundtrip base l target.toNat t hl ht)
    rw [List.length_take] at htcount
    have hmin : target.toNat ⊓ l.length = target.toNat := by omega
    rw [hmin] at htcount
    rw [htcount]
    omega
  · rw [if_neg hcase]
    exact extendLoop_count e hE rand target _ base tokens0 1 rfl (by omega) le_rfl

theorem charEnc_lossless_laws : LosslessDecoding charEnc :=
  ⟨charEnc_total_encode, charEnc_total_decode, charEnc_decode_append,
   fun s l h => charEnc_lossless s l h⟩

theorem decode_flatten (e : Encoding) (hL : LosslessDecoding e) :
    ∀ l t, e.decode l = some t →
      (l.map (fun i => (e.decode [i]).getD [])).flatten = t := by
  intro l
  induction l with
  | nil =>
    intro t h
    obtain ⟨t0, h0⟩ := hL.total_decode []
    have happ := hL.decode_append [] [] t0 t0 h0 h0
    rw [List.nil_append, h0] at happ
    have ht0 : t0 = [] := by
      have := Option.some.inj happ
      have hlen := congrArg List.length this
      rw [List.length_append] at hlen
      exact List.eq_nil_of_length_eq_zero (by omega)
    rw [h0, ht0] at h
    simpa using (Option.some.inj h).symm
  | cons i rest ih =>
    intro t h
    obtain ⟨ti, hti⟩ := hL.total_decode [i]
    obtain ⟨tr, htr⟩ := hL.total_decode rest
    have happ := hL.decode_append [i] rest ti tr hti htr
    rw [List.singleton_append, h] at happ
    have ht : t = ti ++ tr := Option.some.inj happ
    rw [List.map_cons, List.flatten_cons, hti, ih tr htr, ht]
    rfl

theorem frameList_sleep (x : ℚ) (evs : List Event) :
    frameList (Event.sleep x :: evs) = frameList evs := rfl

theorem frameList_frame (f : Frame) (evs : List Event) :
    frameList (Event.frame f :: evs) = f :: frameList evs := rfl

theorem frameList_append (a b : List Event) :
    frameList (a ++ b) = frameList a ++ frameList b :=
  List.filterMap_append a b _

theorem deltaTexts_append (a b : List Event) :
    deltaTexts (a ++ b) = deltaTexts a ++ deltaTexts b := by
  simp [deltaTexts, List.filterMap_append]

theorem countContentDeltas_append (a b : List Event) :
    countContentDeltas (a ++ b) = countContentDeltas a + countContentDeltas b := by
  simp [countContentDeltas, frameList_append, List.countP_append]

theorem isContentDelta_content (rid : Text) (created : Int) (model : Text)
    (t : Text) :
    isContentDelta (Frame.chunk (mkStreamChunk rid created model ⟨none, some t⟩ none))
      = true := rfl

theorem isContentDelta_role (rid : Text) (created : Int) (model : Text) :
    isContentDelta (Frame.chunk (mkStreamChunk rid created model
      ⟨some assistantTxt, some []⟩ none)) = false := rfl

theorem isContentDelta_final (rid : Text) (created : Int) (model : Text) :
    isContentDelta (Frame.chunk (mkStreamChunk rid created model ⟨none, none⟩
      (some stopTxt))) = false := rfl

theorem emitWords_nil (rid : Text) (created : Int) (model : Text) (itl : ℚ)
    (first : Bool) : emitWords rid created model itl [] first = [] := rfl

theorem frameList_if_sleep (itl : ℚ) (first : Bool) :
    frameList (if first then ([] : List Event) else [Event.sleep itl]) = [] := by
  cases first <;> rfl

theorem emitWords_frameList (rid : Text) (created : Int) (model : Text)
    (itl : ℚ) : ∀ ws first,
    frameList (emitWords rid created model itl ws first)
      = ws.map (fun w => Frame.chunk (mkStreamChunk rid created model
          ⟨none, some (w ++ [' '])⟩ none)) := by
  intro ws
  induction ws with
  | nil => intro first; rfl
  | cons w rest ih =>
    intro first
    show frameList ((if first then ([] : List Event) else [Event.sleep itl])
      ++ Event.frame (Frame.chunk (mkStreamChunk rid created model
           ⟨none, some (w ++ [' '])⟩ none))
        :: emitWords rid created model itl rest false) = _
    rw [frameList_append, frameList_if_sleep, frameList_frame, ih false]
    rfl

theorem emitTokens_frameList_ok (e : Encoding)
    (hdec : ∀ l, ∃ t, e.decode l = some t) (rid : Text) (created : Int)
    (model : Text) (itl : ℚ) : ∀ ts first,
    (emitTokens e rid created model itl ts first).2 = true
    ∧ frameList (emitTokens e rid created model itl ts first).1
        = ts.map (fun t => Frame.chunk (mkStreamChunk rid created model
            ⟨none, some ((e.decode [t]).getD [])⟩ none)) := by
  intro ts
  induction ts with
  | nil => intro first; exact ⟨rfl, rfl⟩
  | cons t rest ih =>
    intro first
    obtain ⟨ti, hti⟩ := hdec [t]
    have hbody : emitTokens e rid created model itl (t :: rest) first
        = ((if first then ([] : List Event) else [Event.sleep itl])
            ++ Event.frame (Frame.chunk (mkStreamChunk rid created model
                 ⟨none, some ti⟩ none))
              :: (emitTokens e rid created model itl rest false).1,
           (emitTokens e rid created model itl rest false).2) := by
      simp only [emitTokens]
      rw [hti]
    rw [hbody]
    refine ⟨(ih false).1, ?_⟩
    show frameList (_ ++ _ :: _) = _
    rw [frameList_append, frameList_if_sleep, frameList_frame, (ih false).2]
    rw [List.map_cons, hti]
    rfl

theorem emitTokens_frameList_shape (e : Encoding) (rid : Text) (created : Int)
    (model : Text) (itl : ℚ) : ∀ ts first, ∃ texts : List Text,
    frameList (emitTokens e rid created model itl ts first).1
      = texts.map (fun t => Frame.chunk (mkStreamChunk rid created model
          ⟨none, some t⟩ none)) := by
  intro ts
  induction ts with
  | nil => intro first; exact ⟨[], rfl⟩
  | cons t rest ih =>
    intro first
    cases hti : e.decode [t] with
    | none =>
      refine ⟨[], ?_⟩
      have hbody : (emitTokens e rid created model itl (t :: rest) first).1
          = (if first then ([] : List Event) else [Event.sleep itl]) := by
        simp only [emitTokens]
        rw [hti]
      rw [hbody, frameList_if_sleep]
      rfl
    | some ti =>
      obtain ⟨texts, htexts⟩ := ih false
      refine ⟨ti :: texts, ?_⟩
      have hbody : (emitTokens e rid created model itl (t :: rest) first).1
          = (if first then ([] : List Event) else [Event.sleep itl])
            ++ Event.frame (Frame.chunk (mkStreamChunk rid created model
                 ⟨none, some ti⟩ none))
              :: (emitTokens e rid created model itl rest false).1 := by
        simp only [emitTokens]
        rw [hti]
      rw [hbody, frameList_append, frameList_if_sleep, frameList_frame, htexts]
      rfl

theorem deltaTexts_eq_frames (evs : List Event) :
    deltaTexts evs = ((frameList evs).filterMap (fun f =>
      match f with
      | Frame.chunk c =>
        match c.choices with
        | [ch] =>
          match ch.delta.role, ch.delta.content, ch.finish_reason with
          | none, some t, none => some t
          | _, _, _ => none
        | _ => none
      | _ => none)).flatten := by
  unfold deltaTexts frameList
  rw [List.filterMap_filterMap]
  congr 1
  apply List.filterMap_congr
  intro ev _
  cases ev with
  | sleep x => rfl
  | frame f => cases f <;> rfl

theorem deltaTexts_of_frameList (evs : List Event) (rid : Text) (created : Int)
    (model : Text) (texts : List Text)
    (h : frameList evs = texts.map (fun t => Frame.chunk (mkStreamChunk rid
      created model ⟨none, some t⟩ none))) :
    deltaTexts evs = texts.flatten := by
  rw [deltaTexts_eq_frames, h, List.filterMap_map]
  congr 1
  have hcomp : ∀ x ∈ texts, ((fun f =>
      match f with
      | Frame.chunk c =>
        match c.choices with
        | [ch] =>
          match ch.delta.role, ch.delta.content, ch.finish_reason with
          | none, some t, none => some t
          | _, _, _ => none
        | _ => none
      | _ => none) ∘ (fun t => Frame.chunk (mkStreamChunk rid created model
        ⟨none, some t⟩ none))) x = some x := fun x _ => rfl
  rw [List.filterMap_congr hcomp, List.filterMap_some]

theorem countContentDeltas_of_frameList (evs : List Event) (rid : Text)
    (created : Int) (model : Text) (texts : List Text)
    (h : frameList evs = texts.map (fun t => Frame.chunk (mkStreamChunk rid
      created model ⟨none, some t⟩ none))) :
    countContentDeltas evs = texts.length := by
  rw [countContentDeltas, h, List.countP_map]
  have hcomp : (isContentDelta ∘ (fun t => Frame.chunk (mkStreamChunk rid
      created model ⟨none, some t⟩ none))) = fun _ => true :=
    funext fun t => rfl
  rw [hcomp, List.countP_true]

theorem streamMiddle_shape (enc : Option Encoding) (rid : Text) (created : Int)
    (model : Text) (itl : ℚ) (content : Text) : ∃ texts : List Text,
    frameList (streamMiddle enc rid created model itl content)
      = texts.map (fun t => Frame.chunk (mkStreamChunk rid created model
          ⟨none, some t⟩ none)) := by
  cases enc with
  | none =>
    refine ⟨(pySplit content).map (fun w => w ++ [' ']), ?_⟩
    show frameList (emitWords rid created model itl (pySplit content) true) = _
    rw [emitWords_frameList, List.map_map]
    rfl
  | some e =>
    show ∃ texts, frameList (match e.encode content with
      | some tokens =>
        let r := emitTokens e rid created model itl tokens true
        if r.2 then r.1
        else r.1 ++ emitWords rid created model itl (pySplit content) true
      | none => emitWords rid created model itl (pySplit content) true) = _
    cases henc : e.encode content with
    | none =>
      dsimp only
      refine ⟨(pySplit content).map (fun w => w ++ [' ']), ?_⟩
      rw [emitWords_frameList, List.map_map]
      rfl
    | some tokens =>
      dsimp only
      obtain ⟨texts1, h1⟩ :=
        emitTokens_frameList_shape e rid created model itl tokens true
      by_cases hr2 : (emitTokens e rid created model itl tokens true).2 = true
      · rw [if_pos hr2]
        exact ⟨texts1, h1⟩
      · rw [if_neg hr2, frameList_append, h1,
          emitWords_frameList rid created model itl (pySplit content) true]
        refine ⟨texts1 ++ (pySplit content).map (fun w => w ++ [' ']), ?_⟩
        rw [List.map_append, List.map_map]
        rfl

theorem streamMiddle_exact (e : Encoding)
    (hdec : ∀ l, ∃ t, e.decode l = some t) (rid : Text) (created : Int)
    (model : Text) (itl : ℚ) (content : Text) (tokens : List Nat)
    (henc : e.encode content = some tokens) :
    frameList (streamMiddle (some e) rid created model itl content)
      = tokens.map (fun t => Frame.chunk (mkStreamChunk rid created model
          ⟨none, some ((e.decode [t]).getD [])⟩ none)) := by
  show frameList (match e.encode content with
    | some tokens =>
      let r := emitTokens e rid created model itl tokens true
      if r.2 then r.1
      else r.1 ++ emitWords rid created model itl (pySplit content) true
    | none => emitWords rid created model itl (pySplit content) true) = _
  rw [henc]
  dsimp only
  obtain ⟨hok, hframes⟩ :=
    emitTokens_frameList_ok e hdec rid created model itl tokens true
  rw [if_pos hok]
  exact hframes

theorem streamEvents_frameList (enc : Option Encoding) (rand : Nat → Nat)
    (model rid : Text) (created : Int) (ttft itl : ℚ) (n : Int) :
    frameList (streamEvents enc rand model rid created ttft itl n)
      = Frame.chunk (mkStreamChunk rid created model
          ⟨some assistantTxt, some []⟩ none)
        :: (frameList (streamMiddle enc rid created model itl
              (generateResponseContent enc rand n))
        ++ [Frame.chunk (mkStreamChunk rid created model ⟨none, none⟩
              (some stopTxt)), Frame.done]) := by
  show frameList (Event.sleep ttft :: Event.frame _ :: (_ ++ _)) = _
  rw [frameList_sleep, frameList_frame, frameList_append]
  rfl

theorem deltaTexts_streamEvents (enc : Option Encoding) (rand : Nat → Nat)
    (model rid : Text) (created : Int) (ttft itl : ℚ) (n : Int) :
    deltaTexts (streamEvents enc rand model rid created ttft itl n)
      = deltaTexts (streamMiddle enc rid created model itl
          (generateResponseContent enc rand n)) := by
  show deltaTexts (Event.sleep ttft :: Event.frame _ :: (_ ++ _)) = _
  unfold deltaTexts
  rw [List.filterMap_cons_none rfl, List.filterMap_cons_none rfl,
    List.filterMap_append]
  show ((_ ++ [])).flatten = _
  rw [List.append_nil]

theorem countContentDeltas_streamEvents (enc : Option Encoding)
    (rand : Nat → Nat) (model rid : Text) (created : Int) (ttft itl : ℚ)
    (n : Int) :
    countContentDeltas (streamEvents enc rand model rid created ttft itl n)
      = countContentDeltas (streamMiddle enc rid created model itl
          (generateResponseContent enc rand n)) := by
  rw [countContentDeltas, streamEvents_frameList,
    List.countP_cons_of_neg _ _ (by simp [isContentDelta_role]),
    List.countP_append]
  show countContentDeltas _ + List.countP _ [Frame.chunk _, Frame.done] = _
  rw [List.countP_cons_of_neg _ _ (by simp [isContentDelta_final]),
    List.countP_cons_of_neg _ _ (by simp [isContentDelta]), List.countP_nil,
    Nat.add_zero]

/-- C1: for every targetTokens of at least 1, when exact truncation is
available — the tiktoken encoder is initialized, never raises, and
satisfies the exactness laws of an exact tokenizer — the content
synthesizer returns a text whose token count under the same encoder equals
targetTokens, for every possible sequence of random phrase picks. -/
theorem C1_synthesize_exact_token_count (e : Encoding) (rand : Nat → Nat)
    (targetTokens : Int) (hE : ExactEncoding e) (ht : 1 ≤ targetTokens) :
    (countTokens (some e)
        (generateResponseContent (some e) rand targetTokens) : Int)
      = targetTokens :=
  generate_count_exact e hE rand targetTokens ht

theorem C1_witness :
    (countTokens (some nwsEnc)
        (generateResponseContent (some nwsEnc) (fun _ => 0) 5) : Int) = 5 :=
  C1_synthesize_exact_token_count nwsEnc (fun _ => 0) 5 nwsEnc_exact (by decide)

/-- C10: for every negative target n, when the encoder is initialized and
does not raise, the truncation branch is taken (a token count is never
below a negative bound) and the synthesizer returns the decoding of all but
the last |n| token ids of the chosen base phrase; the call returns normally
and, whenever the base phrase has more than |n| tokens, the result is
non-empty. -/
theorem C10_negative_target_truncation (e : Encoding) (rand : Nat → Nat)
    (n : Int) (hn : n < 0)
    (htote : ∀ s, ∃ l, e.encode s = some l)
    (htotd : ∀ l, ∃ t, e.decode l = some t)
    (hne : ∀ l t, e.decode l = some t → l ≠ [] → t ≠ []) :
    ∃ l t, e.encode (randChoice rand 0 sampleResponses) = some l
      ∧ e.decode (l.take (l.length - n.natAbs)) = some t
      ∧ generateResponseContent (some e) rand n = t
      ∧ (n.natAbs < l.length → t ≠ []) := by
  obtain ⟨l, hl⟩ := htote (randChoice rand 0 sampleResponses)
  have hslice : pySliceTo l n = l.take (l.length - n.natAbs) := by
    unfold pySliceTo
    rw [if_pos hn]
    congr 1
    omega
  obtain ⟨t, ht⟩ := htotd (l.take (l.length - n.natAbs))
  refine ⟨l, t, hl, ht, ?_, ?_⟩
  · unfold generateResponseContent
    have hcast : (0 : Int)
        ≤ (countTokens (some e) (randChoice rand 0 sampleResponses) : Int) :=
      Int.natCast_nonneg _
    rw [if_pos (by omega)]
    dsimp only
    rw [hl]
    dsimp only
    rw [hslice, ht]
  · intro hlt
    apply hne _ _ ht
    have hlen : (l.take (l.length - n.natAbs)).length
        = (l.length - n.natAbs) ⊓ l.length := List.length_take _ _
    have hpos : 0 < (l.take (l.length - n.natAbs)).length := by
      rw [hlen]
      omega
    exact List.length_pos.mp hpos

theorem C10_witness : ∃ l t,
    nwsEnc.encode (randChoice (fun _ => 0) 0 sampleResponses) = some l
    ∧ nwsEnc.decode (l.take (l.length - (-1 : Int).natAbs)) = some t
    ∧ generateResponseContent (some nwsEnc) (fun _ => 0) (-1) = t
    ∧ ((-1 : Int).natAbs < l.length → t ≠ []) :=
  C10_negative_target_truncation nwsEnc (fun _ => 0) (-1) (by decide)
    nwsEnc_total_encode nwsEnc_total_decode nwsEnc_decode_ne_nil

/-- C6: for every text, when the underlying encoder is unavailable (failed
to initialize) or its encode raises on the call, the token count is the
character length divided by 4 with integer division; the adapter is a total
function of the embedding, so no exception escapes it. -/
theorem C6_count_fallback (enc : Option Encoding) (text : Text)
    (h : enc = none ∨ ∃ e, enc = some e ∧ e.encode text = none) :
    countTokens enc text = text.length / 4 := by
  rcases h with h | ⟨e, he, henc⟩
  · rw [h]
    rfl
  · rw [he]
    simp [countTokens, henc]

theorem C6_witness :
    countTokens none ("abcde".data) = ("abcde".data).length / 4 :=
  C6_count_fallback none ("abcde".data) (Or.inl rfl)

/-- C5: every successful non-streaming response reports prompt_tokens as
the length of the serialized message list divided by 4 with integer
division, completion_tokens as the tokenizer count of the returned message
content, and total_tokens as their sum. -/
theorem C5_usage_accounting (enc : Option Encoding) (rand : Nat → Nat)
    (srepr : List Message → Text) (rid : Text) (created : Int)
    (req : ChatCompletionRequest) (h : Headers) (ttft itl : ℚ) (n : Int)
    (hparams : getTimingParams h = some (ttft, itl, n))
    (hstream : req.stream = false) :
    ∃ pre r c,
      chatCompletions enc rand srepr rid created req h
        = Except.ok (ChatResult.complete pre r)
      ∧ r.choices
          = [⟨0, ⟨assistantTxt, some (MessageContent.str c)⟩, some stopTxt⟩]
      ∧ r.usage.prompt_tokens = (srepr req.messages).length / 4
      ∧ r.usage.completion_tokens = countTokens enc c
      ∧ r.usage.total_tokens
          = r.usage.prompt_tokens + r.usage.completion_tokens := by
  refine ⟨[Event.sleep ttft],
    ⟨rid, completionObjectTxt, created, req.model,
     [⟨0, ⟨assistantTxt, some (MessageContent.str
        (generateResponseContent enc rand n))⟩, some stopTxt⟩],
     ⟨(srepr req.messages).length / 4,
      countTokens enc (generateResponseContent enc rand n),
      (srepr req.messages).length / 4
        + countTokens enc (generateResponseContent enc rand n)⟩⟩,
    generateResponseContent enc rand n, ?_, rfl, rfl, rfl, rfl⟩
  unfold chatCompletions
  rw [hparams]
  dsimp only
  rw [hstream]
  rfl

theorem C5_witness : ∃ pre r c,
    chatCompletions none (fun _ => 0) (fun _ => ("0123456789".data)) (['i']) 0
        ⟨"gpt-4".data, [], false, 100, 1⟩ ⟨none, none, some ("5".data)⟩
      = Except.ok (ChatResult.complete pre r)
    ∧ r.choices
        = [⟨0, ⟨assistantTxt, some (MessageContent.str c)⟩, some stopTxt⟩]
    ∧ r.usage.prompt_tokens = ("0123456789".data).length / 4
    ∧ r.usage.completion_tokens = countTokens none c
    ∧ r.usage.total_tokens
        = r.usage.prompt_tokens + r.usage.completion_tokens :=
  C5_usage_accounting none (fun _ => 0) (fun _ => ("0123456789".data)) (['i']) 0
    ⟨"gpt-4".data, [], false, 100, 1⟩ ⟨none, none, some ("5".data)⟩
    _ _ _ rfl rfl

/-- C8: the inter-token delay has no influence on the non-streaming path:
two requests whose headers parse to the same first-token delay and output
length but arbitrary inter-token delays produce identical completed
responses and usage accounting, all other inputs and random choices held
equal. -/
theorem C8_itl_noninterference (enc : Option Encoding) (rand : Nat → Nat)
    (srepr : List Message → Text) (rid : Text) (created : Int)
    (req : ChatCompletionRequest) (h1 h2 : Headers) (ttft itl1 itl2 : ℚ)
    (n : Int)
    (hp1 : getTimingParams h1 = some (ttft, itl1, n))
    (hp2 : getTimingParams h2 = some (ttft, itl2, n))
    (hstream : req.stream = false) :
    chatCompletions enc rand srepr rid created req h1
      = chatCompletions enc rand srepr rid created req h2 := by
  unfold chatCompletions
  rw [hp1, hp2]
  dsimp only
  rw [hstream]
  rfl

theorem C8_witness :
    chatCompletions none (fun _ => 0) (fun _ => []) (['i']) 0
        ⟨"gpt-4".data, [], false, 100, 1⟩ ⟨none, some ("7".data), some ("1".data)⟩
      = chatCompletions none (fun _ => 0) (fun _ => []) (['i']) 0
        ⟨"gpt-4".data, [], false, 100, 1⟩ ⟨none, some ("9".data), some ("1".data)⟩ :=
  C8_itl_noninterference none (fun _ => 0) (fun _ => []) (['i']) 0
    ⟨"gpt-4".data, [], false, 100, 1⟩ _ _ _ _ _ _ rfl rfl rfl

/-- C2 counterexample: a request carrying header X-OUTPUT-LENGTH of -1 is
not rejected: the parse of -1 succeeds, the route returns a normal
completed response rather than HTTP 400, and its content is non-empty, so
content is generated. This falsifies the claim that negative header values
yield HTTP 400. -/
theorem C2_counterexample :
    getTimingParams ⟨none, none, some ("-1".data)⟩
      = some ((100 : ℚ) / 1000, (50 : ℚ) / 1000, -1)
    ∧ isError400 (chatCompletions (some charEnc) (fun _ => 0) (fun _ => [])
        (['i']) 0 ⟨"gpt-4".data, [], false, 100, 1⟩
        ⟨none, none, some ("-1".data)⟩) = false
    ∧ completeContentOf (chatCompletions (some charEnc) (fun _ => 0)
        (fun _ => []) (['i']) 0 ⟨"gpt-4".data, [], false, 100, 1⟩
        ⟨none, none, some ("-1".data)⟩) ≠ [] := by
  refine ⟨rfl, by decide, by decide⟩

/-- C2 amended: a request whose X-TTFT-MS, X-ITL-MS or X-OUTPUT-LENGTH
header fails numeric conversion is rejected with HTTP 400 before any
content is generated; negative numeric values, however, convert
successfully and are not rejected (see the counterexample: -1 yields a
normal response with content). -/
theorem C2_nonnumeric_header_rejected (enc : Option Encoding)
    (rand : Nat → Nat) (srepr : List Message → Text) (rid : Text)
    (created : Int) (req : ChatCompletionRequest) (h : Headers)
    (hbad : getTimingParams h = none) :
    chatCompletions enc rand srepr rid created req h = Except.error 400 := by
  unfold chatCompletions
  rw [hbad]

theorem C2_witness :
    chatCompletions none (fun _ => 0) (fun _ => []) [] 0
      ⟨"gpt-4".data, [], false, 100, 1⟩ ⟨none, none, some ("abc".data)⟩
      = Except.error 400 :=
  C2_nonnumeric_header_rejected none (fun _ => 0) (fun _ => []) [] 0
    ⟨"gpt-4".data, [], false, 100, 1⟩ ⟨none, none, some ("abc".data)⟩ rfl

theorem rendered_last_done (enc : Option Encoding) (rand : Nat → Nat)
    (model rid : Text) (created : Int) (ttft itl : ℚ) (n : Int)
    (json : ChatCompletionStreamResponse → Text) :
    ((frameList (streamEvents enc rand model rid created ttft itl n)).map
      (renderFrame json)).getLast? = some doneFrameTxt := by
  rw [streamEvents_frameList, List.map_cons, List.map_append]
  have hsplit : ∀ (x y z : Text) (L : List Text),
      (x :: (L ++ [y, z])).getLast? = some z := by
    intro x y z L
    rw [show x :: (L ++ [y, z]) = (x :: (L ++ [y])) ++ [z] by simp,
      List.getLast?_concat]
  exact hsplit _ _ _ _

/-- C4: in every streaming response the first chunk carries role
"assistant" with empty content, it is followed by zero or more delta
chunks carrying only content, the last chunk before the sentinel has
finish_reason "stop" and an empty delta object, and under any rendering of
chunks to wire frames the literal "data: [DONE]" frame is the final frame
of the stream. -/
theorem C4_stream_sequence_invariant (enc : Option Encoding)
    (rand : Nat → Nat) (model rid : Text) (created : Int) (ttft itl : ℚ)
    (n : Int) (json : ChatCompletionStreamResponse → Text) :
    ∃ mids : List Frame,
      frameList (streamEvents enc rand model rid created ttft itl n)
        = Frame.chunk (mkStreamChunk rid created model
            ⟨some assistantTxt, some []⟩ none)
          :: (mids ++ [Frame.chunk (mkStreamChunk rid created model
                ⟨none, none⟩ (some stopTxt)), Frame.done])
      ∧ (∀ f ∈ mids, isContentDelta f = true)
      ∧ ((frameList (streamEvents enc rand model rid created ttft itl n)).map
          (renderFrame json)).getLast? = some doneFrameTxt := by
  obtain ⟨texts, hmid⟩ := streamMiddle_shape enc rid created model itl
    (generateResponseContent enc rand n)
  refine ⟨texts.map (fun t => Frame.chunk (mkStreamChunk rid created model
    ⟨none, some t⟩ none)), ?_, ?_, ?_⟩
  · rw [streamEvents_frameList, hmid]
  · intro f hf
    obtain ⟨t, _, rfl⟩ := List.mem_map.mp hf
    rfl
  · exact rendered_last_done enc rand model rid created ttft itl n json

/-- C9: every chunk of a streaming response — the role-open chunk, every
delta chunk and the final chunk — carries the id and created timestamp
fixed once at the start of the stream, before the first-token delay. -/
theorem C9_stream_chunk_ids (enc : Option Encoding) (rand : Nat → Nat)
    (model rid : Text) (created : Int) (ttft itl : ℚ) (n : Int)
    (ev : Event) (c : ChatCompletionStreamResponse)
    (hev : ev ∈ streamEvents enc rand model rid created ttft itl n)
    (hc : ev = Event.frame (Frame.chunk c)) :
    c.id = rid ∧ c.created = created := by
  subst hc
  have hfr : Frame.chunk c
      ∈ frameList (streamEvents enc rand model rid created ttft itl n) :=
    List.mem_filterMap.mpr ⟨_, hev, rfl⟩
  obtain ⟨texts, hmid⟩ := streamMiddle_shape enc rid created model itl
    (generateResponseContent enc rand n)
  rw [streamEvents_frameList, hmid] at hfr
  rcases List.mem_cons.mp hfr with h | h
  · cases h
    exact ⟨rfl, rfl⟩
  rcases List.mem_append.mp h with h | h
  · obtain ⟨t, _, ht⟩ := List.mem_map.mp h
    cases ht
    exact ⟨rfl, rfl⟩
  rcases List.mem_cons.mp h with h | h
  · cases h
    exact ⟨rfl, rfl⟩
  rcases List.mem_cons.mp h with h | h
  · cases h
  · cases h

theorem C9_witness :
    (mkStreamChunk (['x']) 7 (['m']) ⟨some assistantTxt, some []⟩ none).id
      = ['x']
    ∧ (mkStreamChunk (['x']) 7 (['m']) ⟨some assistantTxt, some []⟩
        none).created = 7 :=
  C9_stream_chunk_ids none (fun _ => 0) (['m']) (['x']) 7 0 0 1
    (Event.frame (Frame.chunk (mkStreamChunk (['x']) 7 (['m'])
      ⟨some assistantTxt, some []⟩ none))) _ (by decide) rfl

theorem parse_of_getTimingParams (h : Headers) (t i : ℚ) (n : Int)
    (hparams : getTimingParams h = some (t, i, n)) :
    (match h.outputLength with
      | none => some (20 : Int)
      | some s => parseIntStr s) = some n := by
  simp only [getTimingParams] at hparams
  rcases hT : (match h.ttftMs with
    | none => some (100 : ℚ)
    | some s => parseFloat s) with _ | tv
  · rw [hT] at hparams
    dsimp only at hparams
    cases hparams
  rw [hT] at hparams
  rcases hI : (match h.itlMs with
    | none => some (50 : ℚ)
    | some s => parseFloat s) with _ | iv
  · rw [hI] at hparams
    dsimp only at hparams
    cases hparams
  rw [hI] at hparams
  rcases hO : (match h.outputLength with
    | none => some (20 : Int)
    | some s => parseIntStr s) with _ | ov
  · rw [hO] at hparams
    dsimp only at hparams
    cases hparams
  rw [hO] at hparams
  dsimp only at hparams
  simp only [Option.some.injEq, Prod.mk.injEq] at hparams
  rw [hO, hparams.2.2]

/-- C7: for every streaming request carrying header X-OUTPUT-LENGTH with
value 5, when exact tokenization is available, the route returns a stream
whose rendered frame sequence ends with the literal "data: [DONE]" frame
and whose number of content-carrying delta chunks equals 5. -/
theorem C7_stream_five_deltas (e : Encoding) (rand : Nat → Nat)
    (srepr : List Message → Text) (rid : Text) (created : Int)
    (req : ChatCompletionRequest) (h : Headers) (ttft itl : ℚ) (n : Int)
    (json : ChatCompletionStreamResponse → Text)
    (hE : ExactEncoding e)
    (hout : h.outputLength = some ("5".data))
    (hparams : getTimingParams h = some (ttft, itl, n))
    (hstream : req.stream = true) :
    ∃ evs, chatCompletions (some e) rand srepr rid created req h
        = Except.ok (ChatResult.stream evs)
      ∧ countContentDeltas evs = 5
      ∧ ((frameList evs).map (renderFrame json)).getLast?
          = some doneFrameTxt := by
  have hn : n = 5 := by
    have h5 := parse_of_getTimingParams h ttft itl n hparams
    rw [hout] at h5
    dsimp only at h5
    have hp5 : parseIntStr ("5".data) = some 5 := rfl
    rw [hp5] at h5
    exact (Option.some.inj h5).symm
  subst hn
  refine ⟨streamEvents (some e) rand req.model rid created ttft itl 5,
    ?_, ?_, ?_⟩
  · unfold chatCompletions
    rw [hparams]
    dsimp only
    rw [hstream]
    rfl
  · rw [countContentDeltas_streamEvents]
    obtain ⟨tokens, henc⟩ :=
      hE.total_encode (generateResponseContent (some e) rand 5)
    have hmid := streamMiddle_exact e hE.total_decode rid created req.model
      itl _ tokens henc
    have hcount := countContentDeltas_of_frameList
      (streamMiddle (some e) rid created req.model itl
        (generateResponseContent (some e) rand 5))
      rid created req.model (tokens.map (fun t => (e.decode [t]).getD []))
      (by rw [hmid, List.map_map]; rfl)
    rw [hcount, List.length_map]
    have h5 := generate_count_exact e hE rand 5 (by decide)
    rw [countTokens_encode e henc] at h5
    exact_mod_cast h5
  · exact rendered_last_done (some e) rand req.model rid created ttft itl 5
      json

theorem C7_witness : ∃ evs,
    chatCompletions (some nwsEnc) (fun _ => 0) (fun _ => []) (['i']) 0
        ⟨"gpt-4".data, [], true, 100, 1⟩ ⟨none, none, some ("5".data)⟩
      = Except.ok (ChatResult.stream evs)
    ∧ countContentDeltas evs = 5
    ∧ ((frameList evs).map (renderFrame (fun _ => []))).getLast?
        = some doneFrameTxt :=
  C7_stream_five_deltas nwsEnc (fun _ => 0) (fun _ => []) (['i']) 0
    ⟨"gpt-4".data, [], true, 100, 1⟩ ⟨none, none, some ("5".data)⟩ _ _ _
    (fun _ => []) nwsEnc_exact rfl rfl rfl

/-- C3 counterexample: in the word-based fallback mode (encoder absent),
for identical inputs and random choices, the concatenation of the
delta-chunk texts of the streaming response differs from the content of the
non-streaming response: every word is streamed with a trailing space, so
the concatenation carries a trailing space the content lacks. -/
theorem C3_counterexample :
    deltaTexts (streamEventsOf (chatCompletions none (fun _ => 0)
        (fun _ => []) (['i']) 0 ⟨"gpt-4".data, [], true, 100, 1⟩
        ⟨none, none, some ("5".data)⟩))
      ≠ completeContentOf (chatCompletions none (fun _ => 0) (fun _ => [])
        (['i']) 0 ⟨"gpt-4".data, [], false, 100, 1⟩
        ⟨none, none, some ("5".data)⟩) := by
  decide

/-- C3 amended: for identical inputs and the same random choices,
concatenating the texts of all delta chunks of the streaming response in
emission order yields exactly the content of the non-streaming response
when exact tokenization is available (lossless, non-raising encoder); in
the word-based fallback mode it instead yields every word of that content
with a trailing space appended, which in general differs from the content
itself (see the counterexample). -/
theorem C3_stream_concat (e : Encoding) (rand : Nat → Nat)
    (srepr : List Message → Text) (rid : Text) (created : Int)
    (reqS reqN : ChatCompletionRequest) (h : Headers) (ttft itl : ℚ)
    (n : Int) (hL : LosslessDecoding e)
    (hparams : getTimingParams h = some (ttft, itl, n))
    (hS : reqS.stream = true) (hN : reqN.stream = false) :
    deltaTexts (streamEventsOf
        (chatCompletions (some e) rand srepr rid created reqS h))
      = completeContentOf
          (chatCompletions (some e) rand srepr rid created reqN h)
    ∧ deltaTexts (streamEventsOf
        (chatCompletions none rand srepr rid created reqS h))
      = ((pySplit (completeContentOf
            (chatCompletions none rand srepr rid created reqN h))).map
          (fun w => w ++ [' '])).flatten := by
  have hstream : ∀ enc, streamEventsOf
      (chatCompletions enc rand srepr rid created reqS h)
      = streamEvents enc rand reqS.model rid created ttft itl n := by
    intro enc
    unfold chatCompletions
    rw [hparams]
    dsimp only
    rw [hS]
    rfl
  have hcontent : ∀ enc, completeContentOf
      (chatCompletions enc rand srepr rid created reqN h)
      = generateResponseContent enc rand n := by
    intro enc
    unfold chatCompletions
    rw [hparams]
    dsimp only
    rw [hN]
    rfl
  constructor
  · rw [hstream, hcontent, deltaTexts_streamEvents]
    obtain ⟨tokens, henc⟩ :=
      hL.total_encode (generateResponseContent (some e) rand n)
    have hmid := streamMiddle_exact e hL.total_decode rid created reqS.model
      itl _ tokens henc
    have hdt := deltaTexts_of_frameList
      (streamMiddle (some e) rid created reqS.model itl
        (generateResponseContent (some e) rand n))
      rid created reqS.model (tokens.map (fun t => (e.decode [t]).getD []))
      (by rw [hmid, List.map_map]; rfl)
    rw [hdt]
    exact decode_flatten e hL tokens _ (hL.decode_encode _ tokens henc)
  · rw [hstream, hcontent, deltaTexts_streamEvents]
    have hmid : frameList (streamMiddle none rid created reqS.model itl
        (generateResponseContent none rand n))
        = ((pySplit (generateResponseContent none rand n)).map
            (fun w => w ++ [' '])).map (fun t => Frame.chunk
              (mkStreamChunk rid created reqS.model ⟨none, some t⟩ none)) := by
      show frameList (emitWords rid created reqS.model itl
        (pySplit (generateResponseContent none rand n)) true) = _
      rw [emitWords_frameList, List.map_map]
      rfl
    exact deltaTexts_of_frameList _ rid created reqS.model _ hmid

theorem C3_witness :
    deltaTexts (streamEventsOf (chatCompletions (some charEnc) (fun _ => 0)
        (fun _ => []) (['i']) 0 ⟨"gpt-4".data, [], true, 100, 1⟩
        ⟨none, none, some ("5".data)⟩))
      = completeContentOf (chatCompletions (some charEnc) (fun _ => 0)
          (fun _ => []) (['i']) 0 ⟨"gpt-4".data, [], false, 100, 1⟩
          ⟨none, none, some ("5".data)⟩)
    ∧ deltaTexts (streamEventsOf (chatCompletions none (fun _ => 0)
        (fun _ => []) (['i']) 0 ⟨"gpt-4".data, [], true, 100, 1⟩
        ⟨none, none, some ("5".data)⟩))
      = ((pySplit (completeContentOf (chatCompletions none (fun _ => 0)
            (fun _ => []) (['i']) 0 ⟨"gpt-4".data, [], false, 100, 1⟩
            ⟨none, none, some ("5".data)⟩))).map
          (fun w => w ++ [' '])).flatten :=
  C3_stream_concat charEnc (fun _ => 0) (fun _ => []) (['i']) 0
    ⟨"gpt-4".data, [], true, 100, 1⟩ ⟨"gpt-4".data, [], false, 100, 1⟩
    ⟨none, none, some ("5".data)⟩ _ _ _ charEnc_lossless_laws rfl rfl rfl

end OpenAIEmu
